import Mathlib

/-!
Verification of `src/catalogue_scraper.py` against its specification.

The development is a shallow embedding of the program:

* Python strings are lists of Unicode code points (`PyStr`); unlike Lean
  `String`, a Python `str` may contain lone surrogate code points, which is
  exactly what `.encode("utf-8", "ignore").decode("utf-8")` removes.
* The sqlite table `pages` is a list of `PageRecord` in insertion order; the
  `UNIQUE` constraint on `url` surfaces as the duplicate check inside
  `save_to_sqlite`, and sqlite3 parameter binding of text containing a lone
  surrogate raises, which surfaces as `SaveResult.raised`.
* Network and HTML-parsing collaborators (`session.get`, `parsel.Selector`)
  are oracles passed in as explicit arguments; an exception they raise is an
  explicit `raises` / `Except.error` value.
* `tenacity.retry` is embedded as an attempt-counting combinator.
-/

/-- Python strings: sequences of Unicode code points (possibly including lone
surrogates, which Lean `String` cannot represent). -/
abbrev PyStr := List Nat

/-- Inject a Lean string literal into the code-point representation. -/
def pyOfString (s : String) : PyStr := s.data.map Char.toNat

/-- The code points removed by Python `str.strip()` with no argument
(`Py_UNICODE_ISSPACE`). -/
def isPySpace (c : Nat) : Bool :=
  (9 ≤ c && c ≤ 13) || (28 ≤ c && c ≤ 32) || c == 133 || c == 160 ||
  c == 5760 || (8192 ≤ c && c ≤ 8202) || c == 8232 || c == 8233 ||
  c == 8239 || c == 8287 || c == 12288

/-- The single character stripped by `str.strip(',')`. -/
def isComma (c : Nat) : Bool := c == 44

/-- Python truthiness of a string: non-empty. -/
def pyTruthy (s : PyStr) : Bool := !s.isEmpty

/-- Remove trailing characters satisfying `p` (the right half of
`str.strip`). -/
def dropTrail (p : Nat → Bool) (s : PyStr) : PyStr := (s.reverse.dropWhile p).reverse

/-- Python `str.strip(chars)`: remove the characters satisfying `p` from both
ends of the string. -/
def pyStrip (p : Nat → Bool) (s : PyStr) : PyStr := dropTrail p (s.dropWhile p)

/-- Python `s.strip()` as used in `strip_it`. -/
def pyStripWs (s : PyStr) : PyStr := pyStrip isPySpace s

/-- Python `s.strip(',')` as used in `strip_it`. -/
def pyStripComma (s : PyStr) : PyStr := pyStrip isComma s

/-- Python `s.strip().endswith(',')`, the guard of the `strip_it` loop. -/
def endsWithComma (s : PyStr) : Bool := s.getLast? == some 44

/-- One execution of the `strip_it` loop body:
`inp = inp.strip().strip(',')`. -/
def stripItStep (s : PyStr) : PyStr := pyStripComma (pyStripWs s)

/-- The `strip_it` loop, driven by explicit fuel so that it stays a structural
recursion (the fuel `inp.length + 1` used below is sufficient because every
executed iteration strictly shortens the string, see `stripItStep_length_lt`
and `stripItGo_congr`). -/
def stripItGo : Nat → PyStr → PyStr
  | 0, inp => inp
  | fuel + 1, inp =>
    if endsWithComma (pyStripWs inp) then stripItGo fuel (stripItStep inp) else inp

/-- `def strip_it(inp): while inp.strip().endswith(','): inp = inp.strip().strip(','); return inp` -/
def strip_it (inp : PyStr) : PyStr := stripItGo (inp.length + 1) inp

theorem dropTrail_length_le (p : Nat → Bool) (s : PyStr) :
    (dropTrail p s).length ≤ s.length := by
  have h := (List.dropWhile_suffix (l := s.reverse) p).length_le
  simpa [dropTrail] using h

theorem pyStrip_length_le (p : Nat → Bool) (s : PyStr) :
    (pyStrip p s).length ≤ s.length := by
  have h1 := dropTrail_length_le p (s.dropWhile p)
  have h2 := (List.dropWhile_suffix (l := s) p).length_le
  exact le_trans h1 h2

theorem dropWhile_length_lt_of_head (p : Nat → Bool) (l : List Nat) (a : Nat)
    (hh : l.head? = some a) (hp : p a = true) :
    (l.dropWhile p).length < l.length := by
  cases l with
  | nil => simp at hh
  | cons b t =>
    have hb : b = a := by simpa using hh
    subst hb
    rw [List.dropWhile_cons, hp]
    simpa using Nat.lt_succ_of_le (List.dropWhile_suffix (l := t) p).length_le

theorem dropTrail_length_lt (p : Nat → Bool) (s : PyStr) (a : Nat)
    (hl : s.getLast? = some a) (hp : p a = true) :
    (dropTrail p s).length < s.length := by
  have hh : s.reverse.head? = some a := by simpa using hl
  have h := dropWhile_length_lt_of_head p s.reverse a hh hp
  simpa [dropTrail] using h

theorem pyStrip_length_lt (p : Nat → Bool) (s : PyStr) (a : Nat)
    (hl : s.getLast? = some a) (hp : p a = true) :
    (pyStrip p s).length < s.length := by
  have hne : s ≠ [] := by
    intro h; rw [h] at hl; simp at hl
  rcases hu : s.dropWhile p with _ | ⟨b, t⟩
  · have : (pyStrip p s) = [] := by simp [pyStrip, hu, dropTrail]
    rw [this]
    simpa [List.length_pos] using hne
  · have hsuf : s.dropWhile p <:+ s := List.dropWhile_suffix p
    rcases hsuf with ⟨pre, hpre⟩
    have hlast : (s.dropWhile p).getLast? = some a := by
      rw [← hpre] at hl
      rw [List.getLast?_append] at hl
      rcases hg : (s.dropWhile p).getLast? with _ | c
      · rw [hu] at hg; simp at hg
      · rw [hg] at hl; simpa using hl
    have hlt := dropTrail_length_lt p (s.dropWhile p) a hlast hp
    have hle := (List.dropWhile_suffix (l := s) p).length_le
    calc (pyStrip p s).length < (s.dropWhile p).length := hlt
      _ ≤ s.length := hle

/-- Whenever the loop guard of `strip_it` holds, the loop body strictly
shortens the string: `strip()` does not lengthen, and `strip(',')` removes at
least the trailing comma. -/
theorem stripItStep_length_lt (s : PyStr) (h : endsWithComma (pyStripWs s) = true) :
    (stripItStep s).length < s.length := by
  have hl : (pyStripWs s).getLast? = some 44 := by
    simpa [endsWithComma] using h
  have h1 : (pyStripComma (pyStripWs s)).length < (pyStripWs s).length :=
    pyStrip_length_lt isComma (pyStripWs s) 44 hl (by simp [isComma])
  have h2 : (pyStripWs s).length ≤ s.length := pyStrip_length_le isPySpace s
  exact lt_of_lt_of_le h1 h2

/-- Any two sufficient fuels compute the same value, so `strip_it` is the
fixed point of the loop regardless of the concrete fuel. -/
theorem stripItGo_congr :
    ∀ (fuel₁ : Nat), ∀ (fuel₂ : Nat), ∀ (inp : PyStr),
      inp.length < fuel₁ → inp.length < fuel₂ →
      stripItGo fuel₁ inp = stripItGo fuel₂ inp := by
  intro fuel₁
  induction fuel₁ with
  | zero => intro fuel₂ inp h1 h2; omega
  | succ f ih =>
    intro fuel₂ inp h1 h2
    cases fuel₂ with
    | zero => omega
    | succ g =>
      simp only [stripItGo]
      by_cases hc : endsWithComma (pyStripWs inp) = true
      · rw [hc]
        simp only [if_true]
        have hlt := stripItStep_length_lt inp hc
        exact ih g (stripItStep inp) (by omega) (by omega)
      · rw [Bool.not_eq_true] at hc
        rw [hc]
        simp

theorem stripItGo_eq_strip_it (fuel : Nat) (inp : PyStr) (h : inp.length < fuel) :
    stripItGo fuel inp = strip_it inp :=
  stripItGo_congr fuel (inp.length + 1) inp h (by omega)

/-- Unfolding rule for `strip_it`: when the guard holds, one loop iteration
runs. -/
theorem strip_it_step_eq (s : PyStr) (h : endsWithComma (pyStripWs s) = true) :
    strip_it s = strip_it (stripItStep s) := by
  have hlt := stripItStep_length_lt s h
  have h1 : strip_it s = stripItGo s.length (stripItStep s) := by
    simp only [strip_it, stripItGo, h, if_true]
  rw [h1]
  exact stripItGo_eq_strip_it s.length (stripItStep s) hlt

/-- When the guard fails, `strip_it` returns its input unchanged. -/
theorem strip_it_id_eq (s : PyStr) (h : endsWithComma (pyStripWs s) = false) :
    strip_it s = s := by
  simp [strip_it, stripItGo, h]

theorem strip_it_noTrailingComma_go :
    ∀ (fuel : Nat), ∀ (inp : PyStr), inp.length < fuel →
      endsWithComma (pyStripWs (stripItGo fuel inp)) = false := by
  intro fuel
  induction fuel with
  | zero => intro inp h; omega
  | succ f ih =>
    intro inp h
    by_cases hc : endsWithComma (pyStripWs inp) = true
    · simp only [stripItGo, hc, if_true]
      have hlt := stripItStep_length_lt inp hc
      exact ih (stripItStep inp) (by omega)
    · rw [Bool.not_eq_true] at hc
      simp [stripItGo, hc]

/-- Postcondition of the loop: the result has no trailing comma (after
whitespace trimming). -/
theorem strip_it_noTrailingComma (inp : PyStr) :
    endsWithComma (pyStripWs (strip_it inp)) = false :=
  strip_it_noTrailingComma_go (inp.length + 1) inp (by omega)

theorem dropTrail_decomp (p : Nat → Bool) (s : PyStr) :
    ∃ suf, s = dropTrail p s ++ suf := by
  refine ⟨(s.reverse.takeWhile p).reverse, ?_⟩
  have h := congrArg List.reverse (List.takeWhile_append_dropWhile p s.reverse)
  simp only [List.reverse_append, List.reverse_reverse] at h
  exact h.symm

theorem pyStrip_decomp (p : Nat → Bool) (s : PyStr) :
    ∃ pre suf, s = pre ++ pyStrip p s ++ suf := by
  rcases dropTrail_decomp p (s.dropWhile p) with ⟨suf, hsuf⟩
  refine ⟨s.takeWhile p, suf, ?_⟩
  have h : s.takeWhile p ++ s.dropWhile p = s := List.takeWhile_append_dropWhile p s
  have hsuf2 : s.dropWhile p = pyStrip p s ++ suf := hsuf
  calc s = s.takeWhile p ++ s.dropWhile p := h.symm
    _ = s.takeWhile p ++ (pyStrip p s ++ suf) := by rw [← hsuf2]
    _ = s.takeWhile p ++ pyStrip p s ++ suf := by rw [List.append_assoc]

theorem stripItStep_decomp (s : PyStr) :
    ∃ pre suf, s = pre ++ stripItStep s ++ suf := by
  rcases pyStrip_decomp isPySpace s with ⟨p1, s1, h1⟩
  rcases pyStrip_decomp isComma (pyStripWs s) with ⟨p2, s2, h2⟩
  refine ⟨p1 ++ p2, s2 ++ s1, ?_⟩
  have : pyStripWs s = p2 ++ stripItStep s ++ s2 := h2
  calc s = p1 ++ pyStripWs s ++ s1 := h1
    _ = p1 ++ (p2 ++ stripItStep s ++ s2) ++ s1 := by rw [← this]
    _ = p1 ++ p2 ++ stripItStep s ++ (s2 ++ s1) := by simp [List.append_assoc]

theorem strip_it_middle_go :
    ∀ (fuel : Nat), ∀ (inp : PyStr),
      ∃ pre suf, inp = pre ++ stripItGo fuel inp ++ suf := by
  intro fuel
  induction fuel with
  | zero => intro inp; exact ⟨[], [], by simp [stripItGo]⟩
  | succ f ih =>
    intro inp
    by_cases hc : endsWithComma (pyStripWs inp) = true
    · simp only [stripItGo, hc, if_true]
      rcases stripItStep_decomp inp with ⟨p1, s1, h1⟩
      rcases ih (stripItStep inp) with ⟨p2, s2, h2⟩
      refine ⟨p1 ++ p2, s2 ++ s1, ?_⟩
      calc inp = p1 ++ stripItStep inp ++ s1 := h1
        _ = p1 ++ (p2 ++ stripItGo f (stripItStep inp) ++ s2) ++ s1 := by rw [← h2]
        _ = p1 ++ p2 ++ stripItGo f (stripItStep inp) ++ (s2 ++ s1) := by
            simp [List.append_assoc]
    · rw [Bool.not_eq_true] at hc
      exact ⟨[], [], by simp [stripItGo, hc]⟩

/-- The result of `strip_it` is a contiguous fragment of the input: characters
are only ever removed at the two ends. -/
theorem strip_it_middle (inp : PyStr) :
    ∃ pre suf, inp = pre ++ strip_it inp ++ suf :=
  strip_it_middle_go (inp.length + 1) inp

/-- C4 counterexample evidence: on the input `",X,"` the code returns `"X"`,
which is not a prefix of the input, so the cleanup did not act on the
string's end only. -/
theorem strip_it_not_end_only :
    strip_it (pyOfString ",X,") = pyOfString "X" ∧
    (strip_it (pyOfString ",X,")).isPrefixOf (pyOfString ",X,") = false := by
  constructor
  · rfl
  · rfl

/-- C4 (corrected): `strip_it` repeatedly strips whitespace from both ends and
commas from both ends, as long as the whitespace-trimmed string still ends
with a comma; the result carries no trailing comma-with-optional-whitespace,
the result is always a contiguous fragment of the input (characters are
removed only at the two ends, including the leading end, not only the
trailing end), and the example `"X, Y, , "` reduces to `"X, Y"`. -/
theorem strip_it_spec :
    (∀ inp : PyStr,
        endsWithComma (pyStripWs (strip_it inp)) = false ∧
        ∃ pre suf, inp = pre ++ strip_it inp ++ suf) ∧
    strip_it (pyOfString "X, Y, , ") = pyOfString "X, Y" := by
  refine ⟨fun inp => ⟨strip_it_noTrailingComma inp, strip_it_middle inp⟩, ?_⟩
  rfl

/-- C10: the `strip_it` loop terminates on every input: whenever the loop
guard holds (the whitespace-trimmed string ends with a comma), the body
`inp = inp.strip().strip(',')` strictly shortens the string, and running the
loop on the shortened string computes the same final value. -/
theorem strip_it_terminates (s : PyStr)
    (h : endsWithComma (pyStripWs s) = true) :
    (stripItStep s).length < s.length ∧ strip_it s = strip_it (stripItStep s) :=
  ⟨stripItStep_length_lt s h, strip_it_step_eq s h⟩

/-- Witness for C10 at the concrete input `" a,,"`. -/
theorem strip_it_terminates_witness :
    (stripItStep (pyOfString " a,,")).length < (pyOfString " a,,").length ∧
    strip_it (pyOfString " a,,") = strip_it (stripItStep (pyOfString " a,,")) :=
  strip_it_terminates (pyOfString " a,,") (by decide)

/-- A lone UTF-16 surrogate code point: the only code points a Python `str`
can contain that the UTF-8 codec refuses to encode. -/
def isSurrogate (c : Nat) : Bool := 55296 ≤ c && c ≤ 57343

/-- Python `s.encode("utf-8", "ignore").decode("utf-8")` (lines 41-43 of the
source): drop every code point the UTF-8 codec cannot encode. -/
def sanitizeTxt (s : PyStr) : PyStr := s.filter (fun c => !(isSurrogate c))

/-- Text accepted by sqlite3 parameter binding (encodable as UTF-8); binding
a string containing a lone surrogate raises instead. -/
def validText (s : PyStr) : Bool := s.all (fun c => !(isSurrogate c))

theorem sanitizeTxt_validText (s : PyStr) : validText (sanitizeTxt s) = true := by
  simp only [validText, List.all_eq_true, sanitizeTxt]
  intro c hc
  exact (List.mem_filter.mp hc).2

/-- One row of the `pages` table (the surrogate `id` column carries no
business meaning and is omitted). -/
structure PageRecord where
  url : PyStr
  part_no : PyStr
  adaptable_for : PyStr
  orig_part_no : PyStr
  deriving DecidableEq, Repr

/-- The `pages` table, in rowid (= insertion) order. -/
abbrev DB := List PageRecord

/-- Outcome of one `save_to_sqlite` call: a fresh insert, a duplicate-key
skip (the caught `IntegrityError`, reported via the skip message), or an
exception escaping to the caller (unencodable text at parameter binding). -/
inductive SaveResult where
  | inserted (db : DB)
  | skipped (db : DB)
  | raised (db : DB)
  deriving DecidableEq, Repr

/-- The table contents after the call, whatever the outcome. -/
def SaveResult.db : SaveResult → DB
  | inserted d => d
  | skipped d => d
  | raised d => d

/-- `async def save_to_sqlite(url, part_no, adaptable_for, orig_part_no)`:
sanitize the three extracted fields (but not `url`), then attempt the
unique-keyed insert; parameter binding happens before the uniqueness
constraint fires, a key collision becomes a caught `IntegrityError`. -/
def save_to_sqlite (db : DB) (url part_no adaptable_for orig_part_no : PyStr) :
    SaveResult :=
  let part_no2 := sanitizeTxt part_no
  let adaptable_for2 := sanitizeTxt adaptable_for
  let orig_part_no2 := sanitizeTxt orig_part_no
  if validText url && validText part_no2 && validText adaptable_for2 &&
      validText orig_part_no2 then
    if db.any (fun r => r.url == url) then SaveResult.skipped db
    else SaveResult.inserted (db ++ [⟨url, part_no2, adaptable_for2, orig_part_no2⟩])
  else SaveResult.raised db

/-- Branch characterization of `save_to_sqlite`: since the three sanitized
fields are always valid text, only the validity of `url` decides whether
binding raises. -/
theorem save_to_sqlite_eq (db : DB) (u p a o : PyStr) :
    save_to_sqlite db u p a o =
      if validText u then
        if db.any (fun r => r.url == u) then SaveResult.skipped db
        else SaveResult.inserted
          (db ++ [⟨u, sanitizeTxt p, sanitizeTxt a, sanitizeTxt o⟩])
      else SaveResult.raised db := by
  simp only [save_to_sqlite, sanitizeTxt_validText, Bool.and_true]

/-- Invariant maintained by the store: pairwise-distinct urls (the `UNIQUE`
column constraint) and urls that sqlite accepted at binding time. -/
abbrev StoreInv (db : DB) : Prop :=
  (db.map (fun r => r.url)).Nodup ∧ ∀ r ∈ db, validText r.url = true

theorem filter_url_length_one (db : DB) (u : PyStr)
    (hnd : (db.map (fun r => r.url)).Nodup)
    (hmem : u ∈ db.map (fun r => r.url)) :
    (db.filter (fun r => r.url == u)).length = 1 := by
  induction db with
  | nil => simp at hmem
  | cons r t ih =>
    simp only [List.map_cons, List.nodup_cons] at hnd
    rcases hnd with ⟨hnotin, hndt⟩
    by_cases hu : r.url = u
    · rw [List.filter_cons]
      have hb : (r.url == u) = true := by simp [hu]
      rw [hb]
      simp only [if_true, List.length_cons]
      have hnil : t.filter (fun r2 => r2.url == u) = [] := by
        rw [List.filter_eq_nil_iff]
        intro r2 hr2 hr2u
        apply hnotin
        rw [← hu] at hr2u
        have : r2.url = r.url := by simpa using hr2u
        rw [← this]
        exact List.mem_map_of_mem (fun x => x.url) hr2
      rw [hnil]
      simp
    · rw [List.filter_cons]
      have hb : (r.url == u) = false := by simp [hu]
      rw [hb]
      simp only [Bool.false_eq_true, if_false]
      apply ih hndt
      rcases List.mem_cons.mp hmem with h | h
      · exact absurd h.symm hu
      · exact h

/-- C3: the `url` column stays pairwise distinct across every insert, and an
insert attempt for an already-present url leaves the store unchanged, is
reported as a skip (the caught duplicate), exactly one row for that url
remains, and no error reaches the caller. -/
theorem save_to_sqlite_unique (db : DB) (u p a o : PyStr) (h : StoreInv db) :
    StoreInv (save_to_sqlite db u p a o).db ∧
    (u ∈ db.map (fun r => r.url) →
      save_to_sqlite db u p a o = SaveResult.skipped db ∧
      ((save_to_sqlite db u p a o).db.filter (fun r => r.url == u)).length = 1) := by
  rcases h with ⟨hnd, hval⟩
  rw [save_to_sqlite_eq]
  by_cases hv : validText u = true
  · by_cases hany : db.any (fun r => r.url == u) = true
    · rw [if_pos hv, if_pos hany]
      refine ⟨⟨hnd, hval⟩, fun _ => ⟨rfl, ?_⟩⟩
      simp only [SaveResult.db]
      apply filter_url_length_one db u hnd
      rcases List.any_eq_true.mp hany with ⟨r, hr, hru⟩
      have hru2 : r.url = u := by simpa using hru
      rw [← hru2]
      exact List.mem_map_of_mem (fun x => x.url) hr
    · rw [if_pos hv, if_neg hany]
      constructor
      · constructor
        · simp only [SaveResult.db, List.map_append, List.map_cons, List.map_nil]
          rw [List.nodup_append]
          refine ⟨hnd, List.nodup_singleton u, ?_⟩
          intro x hx hx2
          have hxu : x = u := by simpa using hx2
          subst hxu
          rcases List.mem_map.mp hx with ⟨r, hr, hru⟩
          exact hany (List.any_eq_true.mpr ⟨r, hr, by simp [hru]⟩)
        · intro r hr
          simp only [SaveResult.db, List.mem_append, List.mem_singleton] at hr
          rcases hr with hr | hr
          · exact hval r hr
          · rw [hr]
            exact hv
      · intro hmem
        exfalso
        rcases List.mem_map.mp hmem with ⟨r, hr, hru⟩
        exact hany (List.any_eq_true.mpr ⟨r, hr, by simp [hru]⟩)
  · rw [if_neg hv]
    refine ⟨⟨hnd, hval⟩, fun hmem => ?_⟩
    exfalso
    rcases List.mem_map.mp hmem with ⟨r, hr, hru⟩
    have h2 := hval r hr
    rw [hru] at h2
    exact hv h2

/-- Witness for C3: a store holding url `"a"`, then a second insert attempt
for `"a"`, which is skipped and leaves exactly that one row. -/
theorem save_to_sqlite_unique_witness :
    StoreInv [⟨[97], [65], [], []⟩] ∧
    save_to_sqlite [⟨[97], [65], [], []⟩] [97] [66] [] [] =
      SaveResult.skipped [⟨[97], [65], [], []⟩] := by
  refine ⟨by decide, ?_⟩
  exact ((save_to_sqlite_unique [⟨[97], [65], [], []⟩] [97] [66] [] []
    (by decide)).2 (by decide)).1

/-- Modelled from the spec: the store insert as the specification words it,
with ALL string fields — `url` included — sanitized to valid text before
storage. -/
def save_to_sqlite_specAllSanitized (db : DB) (u p a o : PyStr) : SaveResult :=
  save_to_sqlite db (sanitizeTxt u) p a o

/-- C8 counterexample: for a url consisting of one unencodable code point,
the code raises at parameter binding (the url was passed through
unsanitized), while the spec-described operation would have dropped the
invalid sequence from the url and stored the record. -/
theorem save_url_not_sanitized_cex :
    save_to_sqlite [] [55296] [65] [] [] = SaveResult.raised [] ∧
    save_to_sqlite_specAllSanitized [] [55296] [65] [] [] =
      SaveResult.inserted [⟨[], [65], [], []⟩] ∧
    sanitizeTxt [55296] ≠ [55296] := by
  refine ⟨by decide, by decide, by decide⟩

/-- C8 (corrected): `save_to_sqlite` sanitizes exactly the three extracted
fields `part_no`, `adaptable_for`, `orig_part_no` before the insert — the
stored values are the sanitized inputs, hence valid text — while `url` is
passed to storage verbatim: an unencodable url makes the insert raise
instead of being cleaned. -/
theorem save_to_sqlite_sanitization (db : DB) (u p a o : PyStr) :
    (validText u = false → save_to_sqlite db u p a o = SaveResult.raised db) ∧
    (validText u = true → db.any (fun r => r.url == u) = false →
      save_to_sqlite db u p a o =
        SaveResult.inserted (db ++ [⟨u, sanitizeTxt p, sanitizeTxt a, sanitizeTxt o⟩]) ∧
      validText (sanitizeTxt p) = true ∧ validText (sanitizeTxt a) = true ∧
      validText (sanitizeTxt o) = true) := by
  rw [save_to_sqlite_eq]
  constructor
  · intro hv
    rw [hv]
    simp
  · intro hv hany
    rw [hv, hany]
    simp [sanitizeTxt_validText]

/-- Witness for C8 (corrected) at a concrete insert: a valid url, a part
number containing one unencodable code point that sanitization drops. -/
theorem save_to_sqlite_sanitization_witness :
    validText ([97] : PyStr) = true ∧
    save_to_sqlite [] [97] [55296, 66] [] [] =
      SaveResult.inserted [⟨[97], [66], [], []⟩] := by
  refine ⟨by decide, ?_⟩
  have h := ((save_to_sqlite_sanitization [] [97] [55296, 66] [] []).2
    (by decide) (by decide)).1
  rw [h]
  rfl

/-- Exception classes the program distinguishes. -/
inductive PyError where
  | connectionError | httpError | integrityError | otherError
  deriving DecidableEq, Repr

/-- The retry predicate
`retry_if_exception_type((ConnectionError, HTTPError))`. -/
def isTransient (e : PyError) : Bool :=
  e == PyError.connectionError || e == PyError.httpError

/-- `async def fetch_url(session, url)`: one `session.get` attempt whose
result text is returned; ANY exception is caught, logged, and `None`
returned. The oracle `get` maps an attempt number to what the network does;
the returned pair is (outcome, number of attempts issued) — the body issues
exactly one attempt, with no retry decorator on it. -/
def fetch_url (get : Nat → Except PyError PyStr) : Option PyStr × Nat :=
  match get 1 with
  | Except.ok t => (some t, 1)
  | Except.error _ => (none, 1)

/-- `tenacity.retry(retry=pred, stop=stop_after_attempt(m), wait=wait_fixed(1))`
around an attempt oracle. Attempt `n` runs with `remaining` attempts still
allowed (the call starts at `n = 1`, `remaining = m`); a failure matching the
predicate is retried after the fixed wait (no observable effect here) while
at least one further attempt is allowed; any other failure, or exhaustion, is
surfaced. Returns (final outcome, attempts actually made). -/
def tenacityRun (pred : PyError → Bool) (get : Nat → Except PyError α) :
    Nat → Nat → Except PyError α × Nat
  | n, remaining + 2 =>
    match get n with
    | Except.ok v => (Except.ok v, n)
    | Except.error e =>
      if pred e then tenacityRun pred get (n + 1) (remaining + 1)
      else (Except.error e, n)
  | n, _ => (get n, n)

def tenacityRetry (pred : PyError → Bool) (maxAttempts : Nat)
    (get : Nat → Except PyError α) : Except PyError α × Nat :=
  tenacityRun pred get 1 maxAttempts

/-- The exception view of one `save_to_sqlite` body run, as the decorator
sees it: the `IntegrityError` is caught inside the body, so the only
exception that escapes is the parameter-binding error, which is not one of
the two transient network classes. -/
def save_to_sqlite_attempt (db : DB) (u p a o : PyStr) :
    Except PyError SaveResult :=
  match save_to_sqlite db u p a o with
  | SaveResult.raised _ => Except.error PyError.otherError
  | SaveResult.skipped d => Except.ok (SaveResult.skipped d)
  | SaveResult.inserted d => Except.ok (SaveResult.inserted d)

/-- `save_to_sqlite` as decorated in the source (lines 35-39): the retry
policy wraps the store write, not any fetch. -/
def save_to_sqlite_retried (db : DB) (u p a o : PyStr) :
    Except PyError SaveResult × Nat :=
  tenacityRetry isTransient 5 (fun _ => save_to_sqlite_attempt db u p a o)

/-- A retried operation whose current attempt cannot fail transiently is
executed exactly once. -/
theorem tenacityRun_nontransient (pred : PyError → Bool)
    (get : Nat → Except PyError α) (n m : Nat)
    (h : ∀ e, get n = Except.error e → pred e = false) :
    tenacityRun pred get n m = (get n, n) := by
  cases m with
  | zero => rfl
  | succ m1 =>
    cases m1 with
    | zero => rfl
    | succ r =>
      simp only [tenacityRun]
      cases hg : get n with
      | ok v => simp [hg]
      | error e =>
        have hp := h e hg
        simp [hg, hp]

/-- C1 evidence (code bug): at the failing input — a URL whose `session.get`
raises `ConnectionError` on every attempt — `fetch_url` issues exactly one
attempt and returns `None`: no fetch is ever retried. The retry policy as
configured would issue 5 attempts on such an always-transiently-failing
operation, but the source attaches it to `save_to_sqlite`, where every call
performs exactly one attempt because a store write never raises the two
transient network classes the predicate matches. -/
theorem fetch_url_single_attempt :
    fetch_url (fun _ => Except.error PyError.connectionError) = (none, 1) ∧
    tenacityRetry isTransient 5
        (fun _ => (Except.error PyError.connectionError : Except PyError PyStr)) =
      (Except.error PyError.connectionError, 5) ∧
    ∀ (db : DB) (u p a o : PyStr), (save_to_sqlite_retried db u p a o).2 = 1 := by
  refine ⟨rfl, rfl, ?_⟩
  intro db u p a o
  have h : tenacityRun isTransient (fun _ => save_to_sqlite_attempt db u p a o) 1 5 =
      (save_to_sqlite_attempt db u p a o, 1) := by
    apply tenacityRun_nontransient
    intro e he
    simp only at he
    cases hs : save_to_sqlite db u p a o with
    | inserted d => rw [save_to_sqlite_attempt, hs] at he; simp at he
    | skipped d => rw [save_to_sqlite_attempt, hs] at he; simp at he
    | raised d =>
      rw [save_to_sqlite_attempt, hs] at he
      simp only [Except.error.injEq] at he
      rw [← he]
      rfl
  simp only [save_to_sqlite_retried, tenacityRetry, h]

/-- The raw selector results for one fetched page, before the Python-side
post-processing: `part_no_raw` is `selector.xpath(...Part-no....).get('')`,
and `rows` holds, for each `tr` of the compatibility table, the pair
`(.css('td:nth-child(1) *::text').get(''), .css('td:nth-child(2) *::text').get(''))`. -/
structure RawPage where
  part_no_raw : PyStr
  rows : List (PyStr × PyStr)
  deriving DecidableEq, Repr

/-- What the network and parser do for one link inside `fetch_contents`:
either some step of `session.get` / selector construction / extraction
raises, or the page yields the raw selector results. -/
inductive FetchOutcome where
  | raises
  | page (raw : RawPage)
  deriving DecidableEq, Repr

/-- `", ".join(xs)`. -/
def joinCommaSpace (xs : List PyStr) : PyStr :=
  (List.intersperse [44, 32] xs).flatten

/-- `part_no = selector.xpath(...).get('').strip()`. -/
def extractPartNo (raw : RawPage) : PyStr := pyStripWs raw.part_no_raw

/-- `adaptable_for = strip_it(', '.join(adaptable_for_array))` where the
array holds column-1 cell texts, each `.strip()`-ed. -/
def extractAdaptableFor (raw : RawPage) : PyStr :=
  strip_it (joinCommaSpace (raw.rows.map (fun it => pyStripWs it.1)))

/-- `orig_part_no = strip_it(', '.join(orig_part_no_array))` over column-2
cell texts. -/
def extractOrigPartNo (raw : RawPage) : PyStr :=
  strip_it (joinCommaSpace (raw.rows.map (fun it => pyStripWs it.2)))

/-- The write guard `if part_no or adaptable_for or orig_part_no:` (Python
string truthiness), evaluated on the extracted fields BEFORE sanitization. -/
def someFieldTruthy (raw : RawPage) : Bool :=
  pyTruthy (extractPartNo raw) || pyTruthy (extractAdaptableFor raw) ||
  pyTruthy (extractOrigPartNo raw)

/-- Observable outcome of one `fetch_contents` task: skipped via the
existing-url pre-filter, an exception caught by the task's `except` (logged,
`None` returned), extraction with all-empty fields (no write attempted), or
a completed `save_to_sqlite` call. -/
inductive FCStatus where
  | skippedExisting | errorCaught | noData | saved
  deriving DecidableEq, Repr

structure FCResult where
  db : DB
  fetched : Bool
  status : FCStatus
  deriving DecidableEq, Repr

/-- `async def fetch_contents(session, link, existing_urls)` against the
store state `db`: the membership test runs before any network call; inside
the `try`, the page is fetched and parsed (`outcome`), the three fields are
extracted, and `save_to_sqlite` runs when some field is non-empty; every
exception — from the fetch, the parser, or escaping `save_to_sqlite` — is
caught by the task's own `except`. -/
def fetch_contents (db : DB) (link : PyStr) (existing : List PyStr)
    (outcome : FetchOutcome) : FCResult :=
  if link ∈ existing then ⟨db, false, FCStatus.skippedExisting⟩
  else
    match outcome with
    | FetchOutcome.raises => ⟨db, true, FCStatus.errorCaught⟩
    | FetchOutcome.page raw =>
      if someFieldTruthy raw then
        match save_to_sqlite db link (extractPartNo raw) (extractAdaptableFor raw)
            (extractOrigPartNo raw) with
        | SaveResult.raised db2 => ⟨db2, true, FCStatus.errorCaught⟩
        | SaveResult.skipped db2 => ⟨db2, true, FCStatus.saved⟩
        | SaveResult.inserted db2 => ⟨db2, true, FCStatus.saved⟩
      else ⟨db, true, FCStatus.noData⟩

/-- `async def get_existing_urls()`: every url currently stored. -/
def get_existing_urls (db : DB) : List PyStr := db.map (fun r => r.url)

/-- `async def extract_links(page)`: the `Selector(...).css("loc::text").getall()`
call is the external parser, given as the oracle `sel` (`none` when it
raises); an exception is caught and `[]` returned. -/
def extract_links (sel : PyStr → Option (List PyStr)) (page : PyStr) :
    List PyStr :=
  match sel page with
  | none => []
  | some links => links

/-- The per-link tasks of phase 4, with the store's writes serialized in task
order (each task performs at most one store write; `gather` awaits them
all). -/
def processLinks (db : DB) (existing : List PyStr)
    (tasks : List (PyStr × FetchOutcome)) : DB :=
  tasks.foldl (fun d t => (fetch_contents d t.1 existing t.2).db) db

/-- C2 counterexample: a page whose only non-empty extracted field consists
of one unencodable code point passes the `if part_no or ...` guard, but the
sanitization inside `save_to_sqlite` then empties it, so a record whose
three extracted fields are all empty is stored. -/
theorem fetch_contents_allEmpty_stored_cex :
    fetch_contents [] [97] [] (FetchOutcome.page ⟨[55296], []⟩) =
      ⟨[⟨[97], [], [], []⟩], true, FCStatus.saved⟩ ∧
    pyTruthy (PageRecord.part_no ⟨[97], [], [], []⟩) = false ∧
    pyTruthy (PageRecord.adaptable_for ⟨[97], [], [], []⟩) = false ∧
    pyTruthy (PageRecord.orig_part_no ⟨[97], [], [], []⟩) = false := by
  refine ⟨by decide, by decide, by decide, by decide⟩

/-- C2 (corrected): a store write is issued for a fetched page only when at
least one extracted field is non-empty before sanitization, and an
extraction yielding all-empty fields results in no store write; every record
a page task adds to the store originates from such a write, its stored
fields being the sanitized extracted fields — which can all be empty when
the only non-empty extracted field consisted of unencodable code points. -/
theorem fetch_contents_field_presence (db : DB) (link : PyStr)
    (existing : List PyStr) (raw : RawPage) :
    (link ∉ existing → someFieldTruthy raw = false →
      fetch_contents db link existing (FetchOutcome.page raw) =
        ⟨db, true, FCStatus.noData⟩) ∧
    (∀ r, r ∈ (fetch_contents db link existing (FetchOutcome.page raw)).db →
      r ∈ db ∨ (someFieldTruthy raw = true ∧
        r = ⟨link, sanitizeTxt (extractPartNo raw),
             sanitizeTxt (extractAdaptableFor raw),
             sanitizeTxt (extractOrigPartNo raw)⟩)) := by
  constructor
  · intro hmem hguard
    simp [fetch_contents, hmem, hguard]
  · intro r hr
    by_cases hmem : link ∈ existing
    · simp only [fetch_contents, if_pos hmem] at hr
      exact Or.inl hr
    · by_cases hguard : someFieldTruthy raw = true
      · simp only [fetch_contents, if_neg hmem, hguard, if_true] at hr
        rw [save_to_sqlite_eq] at hr
        by_cases hv : validText link = true
        · by_cases hany : db.any (fun r2 => r2.url == link) = true
          · rw [if_pos hv, if_pos hany] at hr
            exact Or.inl hr
          · rw [if_pos hv, if_neg hany] at hr
            simp only [List.mem_append, List.mem_singleton] at hr
            rcases hr with hr | hr
            · exact Or.inl hr
            · exact Or.inr ⟨hguard, hr⟩
        · rw [if_neg hv] at hr
          exact Or.inl hr
      · rw [Bool.not_eq_true] at hguard
        simp only [fetch_contents, if_neg hmem, hguard, Bool.false_eq_true,
          if_false] at hr
        exact Or.inl hr

/-- Witness for C2 (corrected): an all-empty extraction produces no store
write, and the one record the counterexample run stores is the sanitized
image of a guard-passing extraction. -/
theorem fetch_contents_field_presence_witness :
    fetch_contents [] [97] [] (FetchOutcome.page ⟨[], []⟩) =
      ⟨[], true, FCStatus.noData⟩ ∧
    ((⟨[97], [], [], []⟩ : PageRecord) ∈ ([] : DB) ∨
      (someFieldTruthy ⟨[55296], []⟩ = true ∧
        (⟨[97], [], [], []⟩ : PageRecord) =
          ⟨[97], sanitizeTxt (extractPartNo ⟨[55296], []⟩),
           sanitizeTxt (extractAdaptableFor ⟨[55296], []⟩),
           sanitizeTxt (extractOrigPartNo ⟨[55296], []⟩)⟩)) := by
  constructor
  · exact (fetch_contents_field_presence [] [97] [] ⟨[], []⟩).1 (by decide) (by decide)
  · exact (fetch_contents_field_presence [] [97] [] ⟨[55296], []⟩).2
      ⟨[97], [], [], []⟩ (by decide)

/-- C5 counterexample: a link consisting of one unencodable code point is
not in the existing-key set and its page yields a non-empty field, yet no
record for it is stored: `save_to_sqlite` raises at parameter binding, the
task's `except` catches the error, and the store is left empty — refuting
the unconditional "its extracted record is stored when any field is
non-empty". -/
theorem fetch_contents_surrogate_link_cex :
    ([55296] : PyStr) ∉ ([] : List PyStr) ∧
    someFieldTruthy ⟨[65], []⟩ = true ∧
    fetch_contents [] [55296] [] (FetchOutcome.page ⟨[65], []⟩) =
      ⟨[], true, FCStatus.errorCaught⟩ ∧
    validText [55296] = false := by
  refine ⟨by decide, by decide, by decide, by decide⟩

/-- C5 (corrected): a link already in the preloaded existing-url set is
skipped before any fetch — the task's result is the same whatever the
network would have done, and the store is untouched — while a link outside
the set is fetched (also when the fetch or parse then raises). When some
extracted field is non-empty, the store afterwards holds a record for that
link via the insert-if-absent write provided the link is bindable text; for
a link containing unencodable code points the store write raises instead,
the task's `except` catches it, and the store is unchanged. -/
theorem fetch_contents_prefilter (db : DB) (link : PyStr)
    (existing : List PyStr) (outcome : FetchOutcome) (raw : RawPage) :
    (link ∈ existing →
      fetch_contents db link existing outcome =
        ⟨db, false, FCStatus.skippedExisting⟩) ∧
    (link ∉ existing →
      (fetch_contents db link existing outcome).fetched = true) ∧
    (link ∉ existing → validText link = true →
      someFieldTruthy raw = true →
      ∃ r, r ∈ (fetch_contents db link existing (FetchOutcome.page raw)).db ∧
        r.url = link) ∧
    (link ∉ existing → validText link = false →
      someFieldTruthy raw = true →
      fetch_contents db link existing (FetchOutcome.page raw) =
        ⟨db, true, FCStatus.errorCaught⟩) := by
  refine ⟨?_, ?_, ?_, ?_⟩
  · intro hmem
    simp [fetch_contents, hmem]
  · intro hmem
    cases outcome with
    | raises => simp [fetch_contents, hmem]
    | page raw2 =>
      by_cases hguard : someFieldTruthy raw2 = true
      · simp only [fetch_contents, if_neg hmem, hguard, if_true]
        rcases hs : save_to_sqlite db link (extractPartNo raw2)
          (extractAdaptableFor raw2) (extractOrigPartNo raw2) with d | d | d <;>
          simp [hs]
      · rw [Bool.not_eq_true] at hguard
        simp [fetch_contents, hmem, hguard]
  · intro hmem hv hguard
    simp only [fetch_contents, if_neg hmem, hguard, if_true]
    rw [save_to_sqlite_eq]
    by_cases hany : db.any (fun r2 => r2.url == link) = true
    · rw [if_pos hv, if_pos hany]
      rcases List.any_eq_true.mp hany with ⟨r, hr, hru⟩
      exact ⟨r, hr, by simpa using hru⟩
    · rw [if_pos hv, if_neg hany]
      refine ⟨⟨link, sanitizeTxt (extractPartNo raw),
        sanitizeTxt (extractAdaptableFor raw),
        sanitizeTxt (extractOrigPartNo raw)⟩, ?_, rfl⟩
      simp
  · intro hmem hv hguard
    simp only [fetch_contents, if_neg hmem, hguard, if_true]
    rw [save_to_sqlite_eq, if_neg (by simp [hv])]

/-- Witness for C5 (corrected): link `"a"` not in the loaded set `{"b"}` is
fetched and stored; the same call with `"a"` in the set is skipped
untouched; the unencodable link `"\ud800"` is fetched but its write raises
and is caught, leaving the store unchanged. -/
theorem fetch_contents_prefilter_witness :
    fetch_contents [] [97] [[97]] (FetchOutcome.page ⟨[65], []⟩) =
      ⟨[], false, FCStatus.skippedExisting⟩ ∧
    (fetch_contents [] [97] [[98]] (FetchOutcome.page ⟨[65], []⟩)).fetched = true ∧
    (∃ r, r ∈ (fetch_contents [] [97] [[98]] (FetchOutcome.page ⟨[65], []⟩)).db ∧
      r.url = [97]) ∧
    fetch_contents [] [55296] [[98]] (FetchOutcome.page ⟨[65], []⟩) =
      ⟨[], true, FCStatus.errorCaught⟩ := by
  refine ⟨?_, ?_, ?_, ?_⟩
  · exact (fetch_contents_prefilter [] [97] [[97]] (FetchOutcome.page ⟨[65], []⟩)
      ⟨[65], []⟩).1 (by decide)
  · exact (fetch_contents_prefilter [] [97] [[98]] (FetchOutcome.page ⟨[65], []⟩)
      ⟨[65], []⟩).2.1 (by decide)
  · exact (fetch_contents_prefilter [] [97] [[98]] (FetchOutcome.page ⟨[65], []⟩)
      ⟨[65], []⟩).2.2.1 (by decide) (by decide) (by decide)
  · exact (fetch_contents_prefilter [] [55296] [[98]] (FetchOutcome.page ⟨[65], []⟩)
      ⟨[65], []⟩).2.2.2 (by decide) (by decide) (by decide)

/-- C9: an exception inside one link task (fetch or parse) is caught by that
task's own `except`, leaving the store untouched ("no data" for that input);
a parse exception inside `extract_links` yields `[]`; and a raising link
task contributes nothing to the batch — removing it from the task list
leaves the final store of every sibling unchanged. -/
theorem fetch_contents_isolation :
    (∀ (db : DB) (link : PyStr) (existing : List PyStr),
      (fetch_contents db link existing FetchOutcome.raises).db = db) ∧
    (∀ (sel : PyStr → Option (List PyStr)) (page : PyStr),
      sel page = none → extract_links sel page = []) ∧
    (∀ (db : DB) (existing : List PyStr) (pre post : List (PyStr × FetchOutcome))
        (link : PyStr),
      processLinks db existing (pre ++ (link, FetchOutcome.raises) :: post) =
        processLinks db existing (pre ++ post)) := by
  have hbase : ∀ (db : DB) (link : PyStr) (existing : List PyStr),
      (fetch_contents db link existing FetchOutcome.raises).db = db := by
    intro db link existing
    by_cases hmem : link ∈ existing
    · simp [fetch_contents, hmem]
    · simp [fetch_contents, hmem]
  refine ⟨hbase, ?_, ?_⟩
  · intro sel page h
    simp [extract_links, h]
  · intro db existing pre post link
    simp only [processLinks, List.foldl_append, List.foldl_cons]
    rw [hbase]

/-- Witness for C9's conditional part at a concrete raising parser. -/
theorem fetch_contents_isolation_witness :
    extract_links (fun _ => none) [97] = [] :=
  fetch_contents_isolation.2.1 (fun _ => none) [97] rfl

/-- The pages kept by `[extract_links(page) for page in pages if page]` in
`main`: the comprehension filters on Python truthiness, so failed fetches
(`None`) and empty documents are dropped. -/
def truthyPages (pages : List (Option PyStr)) : List PyStr :=
  pages.filterMap (fun p =>
    match p with
    | none => none
    | some t => if pyTruthy t then some t else none)

/-- Lines 137-142 of `main`: the sitemap fetch results are gathered
positionally, links are extracted from every kept page, and the per-sitemap
link lists are flattened in order. -/
def sitemapLinks (pages : List (Option PyStr))
    (sel : PyStr → Option (List PyStr)) : List PyStr :=
  ((truthyPages pages).map (fun t => extract_links sel t)).flatten

/-- C7: a failed sitemap fetch yields `None` (first conjunct) and that seed
contributes nothing to link extraction; the collected sequence is the
in-order concatenation of each seed's extracted links — sitemap submission
order, then in-document order — with duplicates across sitemaps preserved.
The hypothesis (the parser finds no links in an empty document, true of
`loc::text` over an empty body) covers the empty-text pages the
comprehension also drops. -/
theorem sitemapLinks_spec (pages : List (Option PyStr))
    (sel : PyStr → Option (List PyStr))
    (hempty : extract_links sel [] = []) :
    (∀ (g : Nat → Except PyError PyStr) (e : PyError),
      g 1 = Except.error e → fetch_url g = (none, 1)) ∧
    sitemapLinks pages sel =
      (pages.map (fun p =>
        match p with
        | none => []
        | some t => extract_links sel t)).flatten := by
  constructor
  · intro g e hg
    simp [fetch_url, hg]
  · induction pages with
    | nil => rfl
    | cons p t ih =>
      cases p with
      | none =>
        simp only [List.map_cons, List.flatten_cons, List.nil_append]
        rw [← ih]
        simp [sitemapLinks, truthyPages]
      | some s =>
        by_cases hs : pyTruthy s = true
        · simp only [List.map_cons, List.flatten_cons]
          rw [← ih]
          simp [sitemapLinks, truthyPages, hs]
        · have hnil : s = [] := by simpa [pyTruthy] using hs
          subst hnil
          simp only [List.map_cons, List.flatten_cons, hempty, List.nil_append]
          rw [← ih]
          simp [sitemapLinks, truthyPages, pyTruthy]

/-- Witness for C7: two successful seeds around one failed seed, with a
parser that returns two copies of the document for a non-empty page. -/
theorem sitemapLinks_spec_witness :
    extract_links (fun t => if t.isEmpty then some [] else some [t, t]) [] = [] ∧
    sitemapLinks [some [97], none, some [98]]
        (fun t => if t.isEmpty then some [] else some [t, t]) =
      ([some [97], none, some [98]].map (fun p =>
        match p with
        | none => []
        | some t =>
          extract_links (fun t2 => if t2.isEmpty then some [] else some [t2, t2]) t)).flatten := by
  refine ⟨by decide, ?_⟩
  exact (sitemapLinks_spec [some [97], none, some [98]]
    (fun t => if t.isEmpty then some [] else some [t, t]) (by decide)).2

/-- Characters that force quoting under `csv.writer`'s default QUOTE_MINIMAL
dialect: the delimiter `,`, the quote character `"`, and the two characters
of the default lineterminator CRLF. -/
def csvSpecial (c : Nat) : Bool := c == 44 || c == 34 || c == 13 || c == 10

def csvNeedsQuote (s : PyStr) : Bool := s.any csvSpecial

/-- Double every quote character (the default doublequote escaping). -/
def csvEscape : PyStr → PyStr
  | [] => []
  | c :: t => if c = 34 then 34 :: 34 :: csvEscape t else c :: csvEscape t

/-- One field as `csv.writer` emits it. -/
def csvField (s : PyStr) : PyStr :=
  if csvNeedsQuote s then 34 :: (csvEscape s ++ [34]) else s

/-- One row as `csv.writer.writerow` emits it: fields joined by the
delimiter, terminated by CRLF, written literally because the export file is
opened with `newline=""`. -/
def csvRow (fs : List PyStr) : PyStr :=
  (List.intersperse [44] (fs.map csvField)).flatten ++ [13, 10]

/-- The column order of the SELECT in `export_to_csv`. -/
def recordFields (r : PageRecord) : List PyStr :=
  [r.url, r.part_no, r.adaptable_for, r.orig_part_no]

/-- The literal header row `["url", "part_no", "adaptable_for", "orig_part_no"]`. -/
def headerFields : List PyStr :=
  [pyOfString "url", pyOfString "part_no", pyOfString "adaptable_for",
   pyOfString "orig_part_no"]

/-- `def export_to_csv()`: SELECT every stored row in rowid (insertion)
order and write the header row followed by one CSV row per record. -/
def export_to_csv (db : DB) : PyStr :=
  csvRow headerFields ++ (db.map (fun r => csvRow (recordFields r))).flatten

/-- Reference CSV reader, inside a quoted field: `""` is an escaped quote, a
lone `"` closes the field. -/
def parseQuoted (acc : PyStr) : PyStr → PyStr × PyStr
  | [] => (acc.reverse, [])
  | c :: rest =>
    if c = 34 then
      match rest with
      | [] => (acc.reverse, [])
      | d :: rest2 =>
        if d = 34 then parseQuoted (34 :: acc) rest2 else (acc.reverse, d :: rest2)
    else parseQuoted (c :: acc) rest

/-- Reference CSV reader, inside an unquoted field: the field runs until the
delimiter or the line terminator. -/
def parseUnquoted (acc : PyStr) : PyStr → PyStr × PyStr
  | [] => (acc.reverse, [])
  | c :: rest =>
    if c == 44 || c == 13 then (acc.reverse, c :: rest)
    else parseUnquoted (c :: acc) rest

/-- Reference CSV reader, one field: a leading quote opens a quoted field. -/
def parseField (s : PyStr) : PyStr × PyStr :=
  match s with
  | [] => ([], [])
  | c :: rest => if c = 34 then parseQuoted [] rest else parseUnquoted [] (c :: rest)

theorem parseQuoted_escape (f : PyStr) :
    ∀ (acc t : PyStr), t.head? ≠ some 34 →
      parseQuoted acc (csvEscape f ++ 34 :: t) = (acc.reverse ++ f, t) := by
  induction f with
  | nil =>
    intro acc t ht
    cases t with
    | nil => simp [csvEscape, parseQuoted]
    | cons d rest =>
      have hd : ¬(d = 34) := by
        intro h
        exact ht (by rw [h]; rfl)
      simp [csvEscape, parseQuoted, hd]
  | cons c f2 ih =>
    intro acc t ht
    by_cases hc : c = 34
    · subst hc
      have he : csvEscape (34 :: f2) = 34 :: 34 :: csvEscape f2 := by
        simp [csvEscape]
      rw [he, List.cons_append, List.cons_append]
      have hstep : parseQuoted acc (34 :: 34 :: (csvEscape f2 ++ 34 :: t)) =
          parseQuoted (34 :: acc) (csvEscape f2 ++ 34 :: t) := by
        simp [parseQuoted]
      rw [hstep, ih (34 :: acc) t ht]
      simp
    · have he : csvEscape (c :: f2) = c :: csvEscape f2 := by
        simp [csvEscape, hc]
      rw [he, List.cons_append]
      have hstep : parseQuoted acc (c :: (csvEscape f2 ++ 34 :: t)) =
          parseQuoted (c :: acc) (csvEscape f2 ++ 34 :: t) := by
        rw [parseQuoted.eq_def]
        simp [hc]
      rw [hstep, ih (c :: acc) t ht]
      simp

theorem parseUnquoted_clean (f : PyStr) :
    ∀ (acc t : PyStr), (∀ c ∈ f, csvSpecial c = false) →
      (t.head? = some 44 ∨ t.head? = some 13) →
      parseUnquoted acc (f ++ t) = (acc.reverse ++ f, t) := by
  induction f with
  | nil =>
    intro acc t hf ht
    cases t with
    | nil => rcases ht with h | h <;> simp at h
    | cons c rest =>
      have hc : c = 44 ∨ c = 13 := by
        rcases ht with h | h
        · left; simpa using h
        · right; simpa using h
      have hcond : (c == 44 || c == 13) = true := by
        rcases hc with h | h <;> simp [h]
      simp [parseUnquoted, hcond]
  | cons c f2 ih =>
    intro acc t hf ht
    have hcs : csvSpecial c = false := hf c (List.mem_cons_self c f2)
    have h44 : ¬(c = 34) ∧ (c == 44 || c == 13) = false := by
      constructor
      · intro h
        rw [h] at hcs
        simp [csvSpecial] at hcs
      · simp only [csvSpecial, Bool.or_eq_false_iff] at hcs ⊢
        exact ⟨hcs.1.1.1, hcs.1.2⟩
  -- the field character is neither a delimiter nor a terminator, so the
  -- reader keeps scanning
    rw [List.cons_append]
    have hstep : parseUnquoted acc (c :: (f2 ++ t)) =
        parseUnquoted (c :: acc) (f2 ++ t) := by
      simp [parseUnquoted, h44.2]
    rw [hstep, ih (c :: acc) t (fun d hd => hf d (List.mem_cons_of_mem c hd)) ht]
    simp

theorem parseField_csvField (f t : PyStr)
    (ht : t.head? = some 44 ∨ t.head? = some 13) :
    parseField (csvField f ++ t) = (f, t) := by
  by_cases hq : csvNeedsQuote f = true
  · have hshape : csvField f ++ t = 34 :: (csvEscape f ++ 34 :: t) := by
      simp [csvField, hq]
    rw [hshape]
    have hht : t.head? ≠ some 34 := by
      rcases ht with h | h <;> rw [h] <;> simp
    have := parseQuoted_escape f [] t hht
    simpa [parseField] using this
  · rw [Bool.not_eq_true] at hq
    have hclean : ∀ c ∈ f, csvSpecial c = false := by
      intro c hc
      have := List.any_eq_false.mp hq
      simpa using this c hc
    have hfield : csvField f = f := by simp [csvField, hq]
    rw [hfield]
    cases f with
    | nil =>
      simp only [List.nil_append]
      cases t with
      | nil => rcases ht with h | h <;> simp at h
      | cons c rest =>
        have hc : c = 44 ∨ c = 13 := by
          rcases ht with h | h
          · left; simpa using h
          · right; simpa using h
        have hc34 : ¬(c = 34) := by rcases hc with h | h <;> omega
        have hcond : (c == 44 || c == 13) = true := by
          rcases hc with h | h <;> simp [h]
        simp [parseField, hc34, parseUnquoted, hcond]
    | cons c f2 =>
      have hcs : csvSpecial c = false := hclean c (List.mem_cons_self c f2)
      have hc34 : ¬(c = 34) := by
        intro h
        rw [h] at hcs
        simp [csvSpecial] at hcs
      have hrun := parseUnquoted_clean (c :: f2) [] t hclean ht
      simp only [List.cons_append] at hrun ⊢
      simp [parseField, hc34]
      simpa using hrun

/-- Reference CSV reader, one record: fields separated by the delimiter,
ended by CRLF (or end of input). -/
def parseRow (s : PyStr) : List PyStr × PyStr :=
  if h44 : ((parseField s).2.head? = some 44) then
    if h : (parseField s).2.tail.length < s.length then
      ((parseField s).1 :: (parseRow (parseField s).2.tail).1,
        (parseRow (parseField s).2.tail).2)
    else ([(parseField s).1], (parseField s).2.tail)
  else if (parseField s).2.head? = some 13 then
    ([(parseField s).1], (parseField s).2.tail.tail)
  else ([(parseField s).1], (parseField s).2)
termination_by s.length
decreasing_by
  simpa [List.length_tail] using h

/-- Reference CSV reader, the whole document as a list of records. -/
def parseRows (s : PyStr) : List (List PyStr) :=
  if s = [] then []
  else
    if h : (parseRow s).2.length < s.length then
      (parseRow s).1 :: parseRows (parseRow s).2
    else [(parseRow s).1]
termination_by s.length

/-- The reference CSV reader over a whole file. -/
def csvParse (s : PyStr) : List (List PyStr) := parseRows s

theorem csvRow_cons₂ (f g : PyStr) (gs : List PyStr) (t : PyStr) :
    csvRow (f :: g :: gs) ++ t = csvField f ++ 44 :: (csvRow (g :: gs) ++ t) := by
  simp only [csvRow, List.map_cons, List.intersperse, List.flatten_cons]
  simp [List.append_assoc]

theorem csvRow_singleton (f : PyStr) (t : PyStr) :
    csvRow [f] ++ t = csvField f ++ 13 :: 10 :: t := by
  simp [csvRow, List.intersperse, List.append_assoc]

theorem parseRow_csvRow (rest : List PyStr) :
    ∀ (f : PyStr) (t : PyStr), parseRow (csvRow (f :: rest) ++ t) = (f :: rest, t) := by
  induction rest with
  | nil =>
    intro f t
    have hf : parseField (csvRow [f] ++ t) = (f, 13 :: 10 :: t) := by
      rw [csvRow_singleton]
      exact parseField_csvField f (13 :: 10 :: t) (Or.inr rfl)
    rw [parseRow.eq_def, hf]
    simp
  | cons g gs ih =>
    intro f t
    have hshape := csvRow_cons₂ f g gs t
    have hf : parseField (csvRow (f :: g :: gs) ++ t) =
        (f, 44 :: (csvRow (g :: gs) ++ t)) := by
      rw [hshape]
      exact parseField_csvField f (44 :: (csvRow (g :: gs) ++ t)) (Or.inl rfl)
    have hlen : (csvRow (g :: gs) ++ t).length <
        (csvRow (f :: g :: gs) ++ t).length := by
      conv_rhs => rw [hshape]
      simp only [List.length_append, List.length_cons]
      omega
    rw [parseRow.eq_def, hf]
    simp only [List.head?_cons, List.tail_cons]
    rw [dif_pos trivial, dif_pos hlen, ih g t]

theorem csvRow_length_ge (fs : List PyStr) : 2 ≤ (csvRow fs).length := by
  simp only [csvRow, List.length_append, List.length_cons, List.length_nil]
  omega

theorem parseRows_flatten : ∀ (rows : List (List PyStr)),
    (∀ r ∈ rows, r ≠ []) → parseRows ((rows.map csvRow).flatten) = rows := by
  intro rows
  induction rows with
  | nil =>
    intro _
    rw [parseRows.eq_def]
    simp
  | cons r rest ih =>
    intro h
    have hrne : r ≠ [] := h r (List.mem_cons_self r rest)
    rcases r with _ | ⟨f, rtail⟩
    · exact absurd rfl hrne
    have hinput : (((f :: rtail) :: rest).map csvRow).flatten =
        csvRow (f :: rtail) ++ (rest.map csvRow).flatten := by
      simp
    have hrow := parseRow_csvRow rtail f ((rest.map csvRow).flatten)
    have hlen2 : 2 ≤ (csvRow (f :: rtail)).length := csvRow_length_ge _
    have hne2 : csvRow (f :: rtail) ++ (rest.map csvRow).flatten ≠ [] := by
      intro hx
      have := congrArg List.length hx
      simp only [List.length_append, List.length_nil] at this
      omega
    have hcond : ((rest.map csvRow).flatten).length <
        (csvRow (f :: rtail) ++ (rest.map csvRow).flatten).length := by
      simp only [List.length_append]
      omega
    rw [hinput, parseRows.eq_def, if_neg hne2]
    simp only [hrow]
    rw [dif_pos hcond]
    rw [ih (fun r2 hr2 => h r2 (List.mem_cons_of_mem _ hr2))]

theorem takeWhile_append_stop (p : Nat → Bool) :
    ∀ (H Z : PyStr), (∀ c ∈ H, p c = true) → ∀ (c0 : Nat), p c0 = false →
      List.takeWhile p (H ++ c0 :: Z) = H := by
  intro H
  induction H with
  | nil =>
    intro Z _ c0 hc0
    simp [List.takeWhile_cons, hc0]
  | cons a H2 ih =>
    intro Z hall c0 hc0
    have ha : p a = true := hall a (List.mem_cons_self a H2)
    simp only [List.cons_append, List.takeWhile_cons, ha, if_true]
    rw [ih Z (fun c hc => hall c (List.mem_cons_of_mem a hc)) c0 hc0]

/-- C6: the export writes the literal header line
`url,part_no,adaptable_for,orig_part_no` first (everything before the first
CR is exactly that text), and a standard CSV reader recovers from the
exported text exactly the header fields followed by one record per stored
row, in store order, with url, part_no, adaptable_for, orig_part_no as the
row's fields — so quoting of embedded delimiters, quotes and newlines
round-trips every field. -/
theorem export_to_csv_spec (db : DB) :
    csvParse (export_to_csv db) = headerFields :: db.map recordFields ∧
    (export_to_csv db).takeWhile (fun c => !(c == 13)) =
      pyOfString "url,part_no,adaptable_for,orig_part_no" := by
  constructor
  · have hexp : export_to_csv db =
        ((headerFields :: db.map recordFields).map csvRow).flatten := by
      simp only [export_to_csv, List.map_cons, List.flatten_cons, List.map_map]
      rfl
    rw [csvParse, hexp]
    apply parseRows_flatten
    intro r hr
    rcases List.mem_cons.mp hr with hh | hh
    · rw [hh]
      simp [headerFields]
    · rcases List.mem_map.mp hh with ⟨rec, _, hre⟩
      rw [← hre]
      simp [recordFields]
  · have hrow : csvRow headerFields =
        pyOfString "url,part_no,adaptable_for,orig_part_no" ++ [13, 10] := by
      decide
    have hshape : export_to_csv db =
        pyOfString "url,part_no,adaptable_for,orig_part_no" ++
          13 :: 10 :: (db.map (fun r => csvRow (recordFields r))).flatten := by
      rw [export_to_csv, hrow]
      simp [List.append_assoc]
    rw [hshape]
    apply takeWhile_append_stop
    · decide
    · decide
